import Mathlib

/-!
Verification development for the wallpaper-helper repository
(src/src/wallpaper_manager.rs).

The Rust code is shallowly embedded: the `WallpaperManager` aggregate and its
operations become pure Lean functions.  Rust `HashMap`s are modelled as
association lists whose `insert` overwrites an existing key in place and
appends a fresh key at the end; iteration order is the list order (the Rust
map has no ordering guarantee; every order-insensitive conclusion below is
stated so that this choice does not matter).  File I/O is modelled by passing
file contents explicitly: `save_config` returns the text it would write, and
`load_config` receives `Option String` (`none` = the file could not be
opened).  The OS wallpaper engine (`IDesktopWallpaper`) is modelled as an
oracle record, and the `Path::exists` check as a boolean oracle on paths.
Strings are processed through their underlying character lists, mirroring the
byte-level operations of the Rust code on ASCII delimiters.
-/

/-- Association-list lookup, modelling `HashMap::get`. -/
def lookupA {α : Type} : List (String × α) → String → Option α
  | [], _ => none
  | (k, v) :: rest, key => if k = key then some v else lookupA rest key

/-- Association-list key test, modelling `HashMap::contains_key`. -/
def containsKeyA {α : Type} (l : List (String × α)) (k : String) : Bool :=
  (lookupA l k).isSome

/-- Association-list insert, modelling `HashMap::insert`: overwrite the
existing entry in place, or append a new entry at the end. -/
def insertA {α : Type} (key : String) (v : α) : List (String × α) → List (String × α)
  | [] => [(key, v)]
  | (k, v') :: rest => if k = key then (key, v) :: rest else (k, v') :: insertA key v rest

/-- Association-list in-place update, modelling
`if let Some(x) = map.get_mut(k) { mutate x }` (no-op when the key is absent). -/
def modifyA {α : Type} (key : String) (f : α → α) : List (String × α) → List (String × α)
  | [] => []
  | (k, v) :: rest => if k = key then (k, f v) :: rest else (k, v) :: modifyA key f rest

/-- Rebuild a string from its character list. -/
def strOf (cs : List Char) : String := String.mk cs

/-- Substring containment on character lists, modelling Rust `str::contains`
with a string pattern (the empty pattern matches everywhere). -/
def listContains (hay needle : List Char) : Bool :=
  match hay with
  | [] => needle.isEmpty
  | _ :: rest => needle.isPrefixOf hay || listContains rest needle

/-- `strContains hay needle` models Rust `hay.contains(needle)`. -/
def strContains (hay needle : String) : Bool :=
  listContains hay.data needle.data

/-- Strip a literal character-list front part, modelling `str::strip_pre` +
`fix` (returns the remainder when `pre` starts the string). -/
def stripPre : List Char → List Char → Option (List Char)
  | [], cs => some cs
  | _ :: _, [] => none
  | p :: ps, c :: cs => if c = p then stripPre ps cs else none

/-- Helper for `splitCh`: returns the chunk before the first delimiter
occurrence paired with the list of the remaining chunks. -/
def splitChAux (d : Char) : List Char → List Char × List (List Char)
  | [] => ([], [])
  | c :: rest =>
    let r := splitChAux d rest
    if c = d then ([], r.1 :: r.2) else (c :: r.1, r.2)

/-- Split on a delimiter character, modelling Rust `str::split(char)`:
always returns at least one (possibly empty) chunk. -/
def splitCh (d : Char) (cs : List Char) : List (List Char) :=
  (splitChAux d cs).1 :: (splitChAux d cs).2

/-- Split at the first occurrence of a delimiter, modelling
`str::find(char)` followed by slicing around the found index. -/
def splitFirst (d : Char) : List Char → Option (List Char × List Char)
  | [] => none
  | c :: rest =>
    if c = d then some ([], rest)
    else (splitFirst d rest).map (fun p => (c :: p.1, p.2))

/-- Strip one trailing carriage return, as Rust's line iterator does for
`\r\n`-terminated lines. -/
def stripCR (l : List Char) : List Char :=
  if l.getLast? = some '\r' then l.dropLast else l

/-- Turn the chunks produced by splitting on `'\n'` into the lines yielded by
Rust `BufRead::lines`: every chunk except the last one was `'\n'`-terminated
and gets a trailing `'\r'` stripped; the final chunk (the text after the last
newline) is yielded as-is unless it is empty. -/
def finishLines : List (List Char) → List (List Char)
  | [] => []
  | [last] => if last = [] then [] else [last]
  | s :: rest => stripCR s :: finishLines rest

/-- The lines of a file's contents, modelling Rust `BufRead::lines`. -/
def rustLinesL (cs : List Char) : List (List Char) :=
  finishLines (splitCh '\n' cs)

/-- Join lines into file contents, modelling repeated `writeln!` (every line,
including the last, is terminated by `'\n'`). -/
def joinNl (ls : List (List Char)) : List Char :=
  ls.foldr (fun l acc => l ++ '\n' :: acc) []

/-- The decimal digit character for `d` (meaningful for `d < 10`). -/
def digitChar (d : Nat) : Char := Char.ofNat (48 + d)

/-- Fuel-driven helper for `natPrint` (structural recursion on the fuel so
that the kernel can evaluate it; the fuel never runs out when it exceeds the
printed number). -/
def natPrintAux : Nat → Nat → List Char
  | 0, _ => []
  | fuel + 1, n =>
    if n < 10 then [digitChar n]
    else natPrintAux fuel (n / 10) ++ [digitChar (n % 10)]

/-- Decimal printing of a natural number, modelling Rust's `Display` for the
unsigned integers written by `save_config`. -/
def natPrint (n : Nat) : List Char := natPrintAux (n + 1) n

/-- The numeric value of a decimal digit character, as used by Rust's integer
parsing (`char::to_digit(10)`). -/
def digitVal (c : Char) : Option Nat :=
  if 48 ≤ c.toNat ∧ c.toNat ≤ 57 then some (c.toNat - 48) else none

/-- Accumulating decimal parse over a digit list; fails on any non-digit. -/
def parseDigitsGo : List Char → Nat → Option Nat
  | [], acc => some acc
  | c :: rest, acc =>
    match digitVal c with
    | some d => parseDigitsGo rest (acc * 10 + d)
    | none => none

/-- Parse a non-empty all-digit list to its decimal value. -/
def parseDigits : List Char → Option Nat
  | [] => none
  | cs => parseDigitsGo cs 0

/-- Rust `str::parse::<u32>`: one optional leading `'+'`, at least one
digit, value within the `u32` range. -/
def parseU32 (cs : List Char) : Option Nat :=
  let body := if cs.head? = some '+' then cs.tail else cs
  match parseDigits body with
  | some n => if n < 4294967296 then some n else none
  | none => none

/-- Rust `str::parse::<i32>`: one optional sign, digits, `i32` range. -/
def parseI32 (cs : List Char) : Option Int :=
  if cs.head? = some '+' ∨ cs.head? = some '-' then
    match parseDigits cs.tail with
    | some n =>
      if cs.head? = some '-' then
        if n ≤ 2147483648 then some (-(Int.ofNat n)) else none
      else
        if n ≤ 2147483647 then some (Int.ofNat n) else none
    | none => none
  else
    match parseDigits cs with
    | some n => if n ≤ 2147483647 then some (Int.ofNat n) else none
    | none => none

/-- ASCII lower-casing of one character (the supported-extension set is pure
ASCII, for which this agrees with Rust `str::to_lowercase`). -/
def asciiLower (c : Char) : Char :=
  if 65 ≤ c.toNat ∧ c.toNat ≤ 90 then Char.ofNat (c.toNat + 32) else c

/-- Lower-case a string character-wise. -/
def lowerStr (s : String) : String := strOf (s.data.map asciiLower)

/-- The file-name portion of a path: the characters after the last `/` or
`\` separator, modelling `Path::file_name` for the paths relevant here. -/
def fileNameChars (cs : List Char) : List Char :=
  ((cs.reverse.takeWhile (fun c => ¬ (c = '/' ∨ c = '\\'))).reverse)

/-- Rust `Path::extension`: the part of the file name after its last dot;
`none` when there is no dot, when the only dot is the leading character of a
hidden file, or for the parent-directory component `..`. -/
def extensionOf (p : String) : Option String :=
  let f := fileNameChars p.data
  if f = ['.', '.'] then none
  else
    match splitFirst '.' f.reverse with
    | none => none
    | some pr => if pr.2 = [] then none else some (strOf pr.1.reverse)

/-- The supported wallpaper extensions, from the `matches!` whitelist in
`set_wallpaper_in_profile`. -/
def supportedExt (e : String) : Bool :=
  e == "jpg" || e == "jpeg" || e == "png" || e == "bmp" || e == "gif" || e == "tiff"

/-! ## Data model -/

/-- One physical monitor, from `MonitorInfo`.  The opaque OS handle and the
pixel rectangle are omitted: no modelled operation reads them except for
printing. -/
structure MonitorInfo where
  device_name : String
  is_primary : Bool
deriving DecidableEq

/-- A named profile, from `WallpaperProfile`: the wallpaper map sends a
monitor device name to a wallpaper path. -/
structure WallpaperProfile where
  name : String
  monitor_wallpapers : List (String × String)
deriving DecidableEq

/-- One schedule entry, from `ScheduleEntry` (`hour`/`minute` are `u32` in
the source; `Nat` here, with the `u32` range imposed where it matters). -/
structure ScheduleEntry where
  profile_name : String
  hour : Nat
  minute : Nat
  enabled : Bool
deriving DecidableEq

/-- The root aggregate, from `WallpaperManager`. -/
structure WallpaperManager where
  monitors : List MonitorInfo
  profiles : List (String × WallpaperProfile)
  schedule : List ScheduleEntry
  scheduler_running : Bool
deriving DecidableEq

/-- The wallpaper-path of `device` in profile `pn` of `m`, used to state
mapping (in)equalities observationally. -/
def lookupWallpaper (m : WallpaperManager) (pn device : String) : Option String :=
  (lookupA m.profiles pn).bind (fun p => lookupA p.monitor_wallpapers device)

/-! ## The wallpaper engine oracle -/

/-- Oracle for the OS `IDesktopWallpaper` capability during one operation:
`monitor_ids` is the identifier list reported by
`GetMonitorDevicePathCount`/`GetMonitorDevicePathAt` (`none` = the count
query failed), and `set_ok id path` tells whether `SetWallpaper(id, path)`
returns a success HRESULT.  A whole-capability creation failure is the
`none` case of `Option WallpaperEngine` at the use sites. -/
structure WallpaperEngine where
  monitor_ids : Option (List String)
  set_ok : String → String → Bool

/-! ## Operations -/

/-- The fixed OS device-path front part `\\.\` stripped during resolver
correlation (the Rust literal `"\\\\.\\"`). -/
def osDevicePre : List Char := ['\\', '\\', '.', '\\']

/-- The correlation loop inside `get_desktop_wallpaper_monitor_ids`: walk the
known monitors; the first one whose device name starts with `\\.\` and whose
stripped remainder occurs inside the engine identifier wins; otherwise the
fallback name is kept. -/
def correlate (monitors : List MonitorInfo) (idCs : List Char) (fallback : String) : String :=
  match monitors with
  | [] => fallback
  | mon :: rest =>
    match stripPre osDevicePre mon.device_name.data with
    | some part => if listContains idCs part then mon.device_name else correlate rest idCs fallback
    | none => correlate rest idCs fallback

/-- The indexed loop of `get_desktop_wallpaper_monitor_ids` over the engine
identifiers, pairing each with its correlated display name. -/
def resolveIds (monitors : List MonitorInfo) : List String → Nat → List (String × String)
  | [], _ => []
  | id :: rest, i =>
    (correlate monitors id.data (strOf (['M','o','n','i','t','o','r',' '] ++ natPrint (i + 1))), id)
      :: resolveIds monitors rest (i + 1)

/-- `get_desktop_wallpaper_monitor_ids`: empty when the capability cannot be
created or its count query fails; otherwise one `(display_name, engine_id)`
pair per engine identifier. -/
def get_desktop_wallpaper_monitor_ids (engine : Option WallpaperEngine)
    (monitors : List MonitorInfo) : List (String × String) :=
  match engine with
  | none => []
  | some eng =>
    match eng.monitor_ids with
    | none => []
    | some ids => resolveIds monitors ids 0

/-- The `is_match` condition of the method-1 loop in
`set_wallpaper_for_monitor`: equality, containment in either direction, or
the unconditional first-identifier (`i == 0`) fallback. -/
def matchesAt (dn : String) (i : Nat) (id : String) : Bool :=
  (id == dn) || strContains id dn || strContains dn id || (i == 0)

/-- Method-1 loop of `set_wallpaper_for_monitor`: walk the engine identifiers
with their index; on a match issue the set call; first success stops the
loop.  The second component records the identifiers for which `SetWallpaper`
was actually invoked, in order. -/
def tier1Go (set_ok : String → String → Bool) (dn wp : String) :
    List String → Nat → Bool × List String
  | [], _ => (false, [])
  | id :: rest, i =>
    if matchesAt dn i id then
      if set_ok id wp then (true, [id])
      else
        let r := tier1Go set_ok dn wp rest (i + 1)
        (r.1, id :: r.2)
    else tier1Go set_ok dn wp rest (i + 1)

/-- The identifiers the method-1 loop treats as matching, in enumeration
order, starting at index `i` (a restatement of the claim's match rule, used
to characterise `tier1Go`). -/
def matchedIds (dn : String) : List String → Nat → List String
  | [], _ => []
  | id :: rest, i =>
    if matchesAt dn i id then id :: matchedIds dn rest (i + 1)
    else matchedIds dn rest (i + 1)

/-- Truncate a candidate list just after the first element accepted by `ok`:
the attempts a first-success-stops loop performs. -/
def firstSuccessCut (ok : String → Bool) : List String → List String
  | [] => []
  | id :: rest => if ok id then [id] else id :: firstSuccessCut ok rest

/-- `set_wallpaper_for_monitor`: method 1 (identifier loop), then method 2
(the device name passed directly as an engine identifier) if method 1 did not
succeed.  Method 3 is commented out in the source. -/
def set_wallpaper_for_monitor (engine : Option WallpaperEngine) (dn wp : String) : Bool :=
  match engine with
  | none => false
  | some eng =>
    let tier1 :=
      match eng.monitor_ids with
      | none => false
      | some ids => (tier1Go eng.set_ok dn wp ids 0).1
    if tier1 then true else eng.set_ok dn wp

/-- `set_wallpaper_for_monitor_with_fallback`: the `SystemParametersInfo`
fallback is commented out, so a method-1/2 failure is final. -/
def set_wallpaper_for_monitor_with_fallback (engine : Option WallpaperEngine)
    (dn wp : String) : Bool :=
  if set_wallpaper_for_monitor engine dn wp then true else false

/-- `create_profile`. -/
def create_profile (m : WallpaperManager) (pn : String) : Bool × WallpaperManager :=
  if containsKeyA m.profiles pn then (false, m)
  else (true, { m with profiles := insertA pn ⟨pn, []⟩ m.profiles })

/-- The extension gate of `set_wallpaper_in_profile`: a path is rejected only
when it has an extension and its lower-cased extension is outside the
whitelist (an extension-less path passes the gate, as the `if let` in the
source skips the check then). -/
def extRejected (wallpaper_path : String) : Bool :=
  match extensionOf wallpaper_path with
  | some ext => !(supportedExt (lowerStr ext))
  | none => false

/-- `set_wallpaper_in_profile`; `fs path` models `Path::new(path).exists()`. -/
def set_wallpaper_in_profile (fs : String → Bool) (m : WallpaperManager)
    (profile_name device_name wallpaper_path : String) : Bool × WallpaperManager :=
  if containsKeyA m.profiles profile_name = false then (false, m)
  else if fs wallpaper_path = false then (false, m)
  else if extRejected wallpaper_path then (false, m)
  else if m.monitors.any (fun mon => mon.device_name == device_name) = false then (false, m)
  else
    let upd := fun p : WallpaperProfile =>
      { p with monitor_wallpapers := insertA device_name wallpaper_path p.monitor_wallpapers }
    (true, { m with profiles := modifyA profile_name upd m.profiles })

/-- `apply_profile`, instrumented: the wallpaper setter is the oracle
`setter`, and the second component records the `(device, path)` pairs for
which it was invoked, in iteration order. -/
def apply_profile (setter : String → String → Bool) (m : WallpaperManager)
    (pn : String) : Bool × List (String × String) :=
  match lookupA m.profiles pn with
  | none => (false, [])
  | some profile =>
    profile.monitor_wallpapers.foldl
      (fun acc dw =>
        let ok := setter dw.1 dw.2
        (acc.1 && ok, acc.2 ++ [dw]))
      (true, [])

/-- `add_schedule`. -/
def add_schedule (m : WallpaperManager) (pn : String) (hour minute : Nat) :
    Bool × WallpaperManager :=
  if containsKeyA m.profiles pn = false then (false, m)
  else if hour > 23 ∨ minute > 59 then (false, m)
  else (true, { m with schedule := m.schedule ++ [⟨pn, hour, minute, true⟩] })

/-- `start_scheduler`, restricted to its effect on the run flag (the spawned
polling thread only reads private snapshots). -/
def start_scheduler (m : WallpaperManager) : WallpaperManager :=
  if m.scheduler_running then m else { m with scheduler_running := true }

/-- `stop_scheduler`. -/
def stop_scheduler (m : WallpaperManager) : WallpaperManager :=
  if m.scheduler_running = false then m else { m with scheduler_running := false }

/-- The overwrite loop in `refresh_monitors`
(`self.monitors[i].device_name = id`): `none` models the index-out-of-bounds
panic that occurs when the identifier list is longer than the monitor list. -/
def refresh_overwrite : List MonitorInfo → List String → Option (List MonitorInfo)
  | ms, [] => some ms
  | [], _ :: _ => none
  | mon :: ms, id :: rest =>
    match refresh_overwrite ms rest with
    | none => none
    | some ms2 => some ({ mon with device_name := id } :: ms2)

/-- `refresh_monitors` after display enumeration has produced `enumd`:
queries the engine identifiers and overwrites the leading monitors' device
names with them (`none` = panic). -/
def refresh_monitors (enumd : List MonitorInfo) (engine : Option WallpaperEngine) :
    Option (List MonitorInfo) :=
  refresh_overwrite enumd
    ((get_desktop_wallpaper_monitor_ids engine enumd).map Prod.snd)

/-! ## Config codec -/

/-- The `[PROFILES]` header line. -/
def profilesHeader : List Char := ['[', 'P', 'R', 'O', 'F', 'I', 'L', 'E', 'S', ']']

/-- The `[SCHEDULE]` header line. -/
def scheduleHeader : List Char := ['[', 'S', 'C', 'H', 'E', 'D', 'U', 'L', 'E', ']']

/-- A `PROFILE:<name>` line. -/
def profileHeaderLine (n : String) : List Char :=
  'P' :: 'R' :: 'O' :: 'F' :: 'I' :: 'L' :: 'E' :: ':' :: n.data

/-- A `␣␣<device>=<path>` assignment line. -/
def deviceLine (dw : String × String) : List Char :=
  ' ' :: ' ' :: (dw.1.data ++ '=' :: dw.2.data)

/-- The lines written for one profile. -/
def profileBlock (np : String × WallpaperProfile) : List (List Char) :=
  profileHeaderLine np.1 :: np.2.monitor_wallpapers.map deviceLine

/-- A `<name>,<hour>,<minute>,<0|1>` schedule line. -/
def scheduleLine (e : ScheduleEntry) : List Char :=
  e.profile_name.data ++ ',' :: natPrint e.hour ++ ',' :: natPrint e.minute
    ++ ',' :: (if e.enabled then ['1'] else ['0'])

/-- All lines written by `save_config`, in order. -/
def saveLines (m : WallpaperManager) : List (List Char) :=
  profilesHeader ::
    (m.profiles.flatMap profileBlock ++ scheduleHeader :: m.schedule.map scheduleLine)

/-- `save_config`: the text written to the file (each line
`writeln!`-terminated).  Write errors are not modelled: the round-trip
statements below presume the save completed. -/
def save_config (m : WallpaperManager) : String :=
  strOf (joinNl (saveLines m))

/-- The parser state of the `load_config` line loop. -/
structure LoadState where
  profiles : List (String × WallpaperProfile)
  schedule : List ScheduleEntry
  cur_section : String
  cur_profile : String
deriving DecidableEq

/-- The `PROFILES`-section cases of the `load_config` loop body. -/
def processProfileLine (st : LoadState) (cs : List Char) : LoadState :=
  match cs with
  | 'P' :: 'R' :: 'O' :: 'F' :: 'I' :: 'L' :: 'E' :: ':' :: nameCs =>
    let nm := strOf nameCs
    { st with cur_profile := nm, profiles := insertA nm ⟨nm, []⟩ st.profiles }
  | ' ' :: ' ' :: rest =>
    if st.cur_profile = "" then st
    else
      match splitFirst '=' rest with
      | none => st
      | some dw =>
        let upd := fun p : WallpaperProfile =>
          { p with monitor_wallpapers := insertA (strOf dw.1) (strOf dw.2) p.monitor_wallpapers }
        { st with profiles := modifyA st.cur_profile upd st.profiles }
  | _ => st

/-- The `SCHEDULE`-section case of the `load_config` loop body. -/
def processScheduleLine (st : LoadState) (cs : List Char) : LoadState :=
  match splitCh ',' cs with
  | [p0, p1, p2, p3] =>
    match parseU32 p1, parseU32 p2, parseI32 p3 with
    | some h, some mi, some en =>
      { st with schedule := st.schedule ++ [⟨strOf p0, h, mi, en == 1⟩] }
    | _, _, _ => st
  | _ => st

/-- One iteration of the `load_config` line loop. -/
def processLine (st : LoadState) (cs : List Char) : LoadState :=
  if cs = [] then st
  else if cs.head? = some '[' ∧ cs.getLast? = some ']' then
    { st with cur_section := strOf ((cs.drop 1).dropLast) }
  else if st.cur_section = "PROFILES" then processProfileLine st cs
  else if st.cur_section = "SCHEDULE" then processScheduleLine st cs
  else st

/-- The parser state before the first line. -/
def initLoadState : LoadState := ⟨[], [], "", ""⟩

/-- `load_config`: `none` models an unopenable file (untouched state, result
`false`); otherwise profiles and schedule are cleared and rebuilt from the
parsed lines, and the result is `true`. -/
def load_config (m : WallpaperManager) (file : Option String) : Bool × WallpaperManager :=
  match file with
  | none => (false, m)
  | some content =>
    let st := (rustLinesL content.data).foldl processLine initLoadState
    (true, { m with profiles := st.profiles, schedule := st.schedule })

/-! ## Spec-side restatements and well-formedness predicates -/

/-- The resolver's correlation test, as the spec words it: the monitor's
device name with the fixed `\\.\` front part stripped occurs inside the
engine identifier (monitors without that front part never match). -/
def correlHit (idStr : String) (mon : MonitorInfo) : Bool :=
  match stripPre osDevicePre mon.device_name.data with
  | some part => listContains idStr.data part
  | none => false

/-- The display name the spec assigns to engine identifier `idStr` at index
`i`: the device name of the first correlating known monitor, else the
1-based fallback `Monitor {i+1}`. -/
def displayNameSpec (monitors : List MonitorInfo) (i : Nat) (idStr : String) : String :=
  match monitors.find? (correlHit idStr) with
  | some mon => mon.device_name
  | none => strOf (['M', 'o', 'n', 'i', 't', 'o', 'r', ' '] ++ natPrint (i + 1))

/-- A line the `SCHEDULE` section of `load_config` skips: it does not split
on `','` into exactly four fields, or a numeric field fails to parse. -/
def badSchedLine (cs : List Char) : Bool :=
  match splitCh ',' cs with
  | [_, p1, p2, p3] => (parseU32 p1).isNone || (parseU32 p2).isNone || (parseI32 p3).isNone
  | _ => true

/-- Sufficient well-formedness of a manager state for the config round trip:
unique, non-empty profile names that contain no newline and do not end in a
carriage return; the profile record's `name` field agreeing with its map key
(as every constructor in the source guarantees); device keys unique per
profile, newline- and `'='`-free; wallpaper paths newline-free and not
ending in a carriage return; schedule profile names newline- and comma-free,
with `u32`-ranged times (automatic in the Rust types). -/
def RoundTripSafe (m : WallpaperManager) : Prop :=
  (m.profiles.map Prod.fst).Nodup ∧
  (∀ np ∈ m.profiles, np.2.name = np.1) ∧
  (∀ np ∈ m.profiles,
    np.1 ≠ "" ∧ '\n' ∉ np.1.data ∧ np.1.data.getLast? ≠ some '\r') ∧
  (∀ np ∈ m.profiles,
    (np.2.monitor_wallpapers.map Prod.fst).Nodup ∧
    ∀ dw ∈ np.2.monitor_wallpapers,
      '\n' ∉ dw.1.data ∧ '=' ∉ dw.1.data ∧
      '\n' ∉ dw.2.data ∧ dw.2.data.getLast? ≠ some '\r') ∧
  (∀ e ∈ m.schedule,
    '\n' ∉ e.profile_name.data ∧ ',' ∉ e.profile_name.data ∧
    e.hour < 4294967296 ∧ e.minute < 4294967296)

/-! ## Concrete instances used by witnesses and counterexamples -/

/-- An empty manager, standing in for a fresh store loading a config. -/
def mgrEmpty : WallpaperManager := ⟨[], [], [], false⟩

/-- A well-formed manager exercising profiles, assignments and schedule. -/
def mgrRT : WallpaperManager :=
  { monitors := [⟨"id1", true⟩],
    profiles := [("p", ⟨"p", [("d1", "C:\\x\\a.png"), ("d2", "b.jpg")]⟩), ("q", ⟨"q", []⟩)],
    schedule := [⟨"p", 7, 30, true⟩, ⟨"q", 23, 59, false⟩],
    scheduler_running := false }

/-- A manager whose device name contains `'='` — allowed by the round-trip
claim's stated precondition, but fatal to the first-`'='` split of the
loader. -/
def mgrEq : WallpaperManager :=
  { monitors := [],
    profiles := [("p", ⟨"p", [("a=b", "c")]⟩)],
    schedule := [],
    scheduler_running := false }

/-- A manager with one profile and one known monitor, for the
`set_wallpaper_in_profile` witness. -/
def mgrAssign : WallpaperManager :=
  { monitors := [⟨"DISP1", true⟩],
    profiles := [("p", ⟨"p", []⟩)],
    schedule := [],
    scheduler_running := false }

/-- A file-existence oracle for the witnesses: exactly two files exist. -/
def fsW : String → Bool :=
  fun p => p == "photo.PNG" || p == "photo.webp"

/-- A profile used by the `apply_profile` witness: two assignments, the
first of which will fail to apply. -/
def mgrApply : WallpaperManager :=
  { monitors := [],
    profiles := [("p", ⟨"p", [("d1", "w1"), ("d2", "w2")]⟩)],
    schedule := [],
    scheduler_running := false }

/-- A setter oracle that succeeds only on device `d2`. -/
def setterW : String → String → Bool := fun d _ => d == "d2"

/-- An engine oracle for the setter witness: two identifiers, only the
second of which accepts a wallpaper. -/
def engW : WallpaperEngine := ⟨some ["X", "Y"], fun i _ => i == "Y"⟩

/-- An engine oracle for the resolver witness, with identifiers matching the
spec's worked example. -/
def engRes : WallpaperEngine := ⟨some ["AAA_DISPLAY1_BBB", "ZZZ"], fun _ _ => true⟩

/-- The monitor list of the spec's resolver example. -/
def monsRes : List MonitorInfo := [⟨"\\\\.\\DISPLAY1", true⟩]

/-! ## Association-list lemmas -/

theorem lookupA_insertA_self {α : Type} (l : List (String × α)) (k : String) (v : α) :
    lookupA (insertA k v l) k = some v := by
  induction l with
  | nil => simp [insertA, lookupA]
  | cons kv rest ih =>
    obtain ⟨k1, v1⟩ := kv
    by_cases h : k1 = k
    · simp [insertA, h, lookupA]
    · simp [insertA, h, lookupA, ih]

theorem lookupA_insertA_ne {α : Type} (l : List (String × α)) (k k' : String) (v : α)
    (h : k' ≠ k) : lookupA (insertA k v l) k' = lookupA l k' := by
  have hne : ¬ (k = k') := fun hh : k = k' => h hh.symm
  induction l with
  | nil => simp [insertA, lookupA, hne]
  | cons kv rest ih =>
    obtain ⟨k1, v1⟩ := kv
    by_cases h1 : k1 = k
    · subst h1
      simp [insertA, lookupA, hne]
    · simp only [insertA, if_neg h1, lookupA]
      by_cases h2 : k1 = k'
      · simp [h2]
      · simp [h2, ih]

theorem lookupA_modifyA_self {α : Type} (l : List (String × α)) (k : String) (f : α → α) :
    lookupA (modifyA k f l) k = (lookupA l k).map f := by
  induction l with
  | nil => simp [modifyA, lookupA]
  | cons kv rest ih =>
    obtain ⟨k1, v1⟩ := kv
    by_cases h : k1 = k
    · simp [modifyA, h, lookupA]
    · simp [modifyA, h, lookupA, ih]

theorem lookupA_modifyA_ne {α : Type} (l : List (String × α)) (k k' : String) (f : α → α)
    (h : k' ≠ k) : lookupA (modifyA k f l) k' = lookupA l k' := by
  have hne : ¬ (k = k') := fun hh : k = k' => h hh.symm
  induction l with
  | nil => simp [modifyA]
  | cons kv rest ih =>
    obtain ⟨k1, v1⟩ := kv
    by_cases h1 : k1 = k
    · subst h1
      simp [modifyA, lookupA, hne]
    · simp only [modifyA, if_neg h1, lookupA]
      by_cases h2 : k1 = k'
      · simp [h2]
      · simp [h2, ih]

theorem insertA_of_lookupA_none {α : Type} (l : List (String × α)) (k : String) (v : α)
    (h : lookupA l k = none) : insertA k v l = l ++ [(k, v)] := by
  induction l with
  | nil => simp [insertA]
  | cons kv rest ih =>
    obtain ⟨k1, v1⟩ := kv
    simp only [lookupA] at h
    by_cases h1 : k1 = k
    · simp [h1] at h
    · simp only [insertA, if_neg h1, List.cons_append, List.cons.injEq, true_and]
      exact ih (by simpa [h1] using h)

theorem lookupA_eq_none_of_not_mem {α : Type} (l : List (String × α)) (k : String)
    (h : k ∉ l.map Prod.fst) : lookupA l k = none := by
  induction l with
  | nil => rfl
  | cons kv rest ih =>
    obtain ⟨k1, v1⟩ := kv
    simp only [List.map_cons, List.mem_cons] at h
    push_neg at h
    simp only [lookupA, if_neg (fun hh : k1 = k => h.1 hh.symm)]
    exact ih h.2

theorem lookupA_append_none {α : Type} (l1 l2 : List (String × α)) (k : String)
    (h : lookupA l1 k = none) : lookupA (l1 ++ l2) k = lookupA l2 k := by
  induction l1 with
  | nil => rfl
  | cons kv rest ih =>
    obtain ⟨k1, v1⟩ := kv
    simp only [lookupA] at h
    by_cases h1 : k1 = k
    · simp [h1] at h
    · simp only [List.cons_append, lookupA, if_neg h1]
      exact ih (by simpa [h1] using h)

theorem modifyA_append_none {α : Type} (pre rest : List (String × α)) (k : String) (f : α → α)
    (h : lookupA pre k = none) : modifyA k f (pre ++ rest) = pre ++ modifyA k f rest := by
  induction pre with
  | nil => rfl
  | cons kv pre' ih =>
    obtain ⟨k1, v1⟩ := kv
    simp only [lookupA] at h
    by_cases h1 : k1 = k
    · simp [h1] at h
    · simp only [List.cons_append, modifyA, if_neg h1, List.cons.injEq, true_and]
      exact ih (by simpa [h1] using h)

/-! ## Claim C3: apply_profile attempts every pair and ANDs the results -/

theorem applyFold (setter : String → String → Bool) :
    ∀ (l : List (String × String)) (b : Bool) (t : List (String × String)),
    l.foldl (fun acc dw => let ok := setter dw.1 dw.2; (acc.1 && ok, acc.2 ++ [dw])) (b, t)
      = (b && l.all (fun dw => setter dw.1 dw.2), t ++ l) := by
  intro l
  induction l with
  | nil => intro b t; simp
  | cons x rest ih =>
    intro b t
    simp only [List.foldl_cons, ih, List.all_cons, List.append_assoc, List.singleton_append,
      Bool.and_assoc]

/-- C3: apply_profile returns false when the profile is absent; otherwise it
invokes the wallpaper setter exactly once per (device, path) pair — all pairs
are attempted, with no short-circuit, as the recorded invocation trace shows
— and returns the conjunction of the per-device results. -/
theorem wm_C3_apply_profile (setter : String → String → Bool) (m : WallpaperManager)
    (pn : String) :
    (lookupA m.profiles pn = none → apply_profile setter m pn = (false, [])) ∧
    (∀ p, lookupA m.profiles pn = some p →
      (apply_profile setter m pn).2 = p.monitor_wallpapers ∧
      (apply_profile setter m pn).1
        = p.monitor_wallpapers.all (fun dw => setter dw.1 dw.2)) := by
  constructor
  · intro h
    simp [apply_profile, h]
  · intro p h
    simp [apply_profile, h, applyFold]

/-- C3 witness: with a stub setter succeeding only on the second device, both
assignments of the two-device profile are attempted and the result is false. -/
theorem wm_C3_witness :
    apply_profile setterW mgrApply "p" = (false, [("d1", "w1"), ("d2", "w2")]) := by
  have h := (wm_C3_apply_profile setterW mgrApply "p").2
    ⟨"p", [("d1", "w1"), ("d2", "w2")]⟩ (by decide)
  have h1 := h.1
  have h2 := h.2
  have : apply_profile setterW mgrApply "p"
      = ((apply_profile setterW mgrApply "p").1, (apply_profile setterW mgrApply "p").2) := rfl
  rw [this, h1, h2]
  decide

/-! ## Claim C7: create_profile -/

/-- C7: create_profile is a no-op returning false when the name exists, and
otherwise inserts an empty profile and returns true; calling it twice with
the same fresh name yields true then false with no state change in between. -/
theorem wm_C7_create_profile (m : WallpaperManager) (pn : String) :
    (containsKeyA m.profiles pn = true → create_profile m pn = (false, m)) ∧
    (containsKeyA m.profiles pn = false →
      (create_profile m pn).1 = true ∧
      lookupA (create_profile m pn).2.profiles pn = some ⟨pn, []⟩ ∧
      (∀ k, k ≠ pn → lookupA (create_profile m pn).2.profiles k = lookupA m.profiles k) ∧
      (create_profile (create_profile m pn).2 pn).1 = false ∧
      (create_profile (create_profile m pn).2 pn).2 = (create_profile m pn).2) := by
  refine ⟨fun h => by simp [create_profile, h], fun h => ?_⟩
  have hnot : ¬ (containsKeyA m.profiles pn = true) := by simp [h]
  have hstep : create_profile m pn
      = (true, { m with profiles := insertA pn ⟨pn, []⟩ m.profiles }) := by
    simp [create_profile, h]
  have hcont2 : containsKeyA (insertA pn ⟨pn, []⟩ m.profiles) pn = true := by
    simp [containsKeyA, lookupA_insertA_self]
  refine ⟨by simp [hstep], by simp [hstep, lookupA_insertA_self], ?_, ?_, ?_⟩
  · intro k hk
    simp [hstep, lookupA_insertA_ne _ _ _ _ hk]
  · rw [hstep]
    simp [create_profile, hcont2]
  · rw [hstep]
    simp [create_profile, hcont2]

/-- C7 witness: creating profile r twice on a concrete store. -/
theorem wm_C7_witness :
    (create_profile mgrEmpty "r").1 = true ∧
    lookupA (create_profile mgrEmpty "r").2.profiles "r" = some ⟨"r", []⟩ ∧
    (create_profile (create_profile mgrEmpty "r").2 "r").1 = false ∧
    (create_profile (create_profile mgrEmpty "r").2 "r").2 = (create_profile mgrEmpty "r").2 := by
  have h := (wm_C7_create_profile mgrEmpty "r").2 (by decide)
  exact ⟨h.1, h.2.1, h.2.2.2.1, h.2.2.2.2⟩

/-! ## Claim C8: scheduler run-flag state machine -/

/-- C8: start_scheduler sets the run flag and is a no-op when it is already
set (so a second start changes nothing); stop_scheduler clears the flag and
is a no-op when it is already clear (stopping a never-started scheduler
changes nothing); both are total, raising no error. -/
theorem wm_C8_scheduler_flag (m : WallpaperManager) :
    (start_scheduler m).scheduler_running = true ∧
    (m.scheduler_running = true → start_scheduler m = m) ∧
    start_scheduler (start_scheduler m) = start_scheduler m ∧
    (stop_scheduler m).scheduler_running = false ∧
    (m.scheduler_running = false → stop_scheduler m = m) ∧
    stop_scheduler (stop_scheduler m) = stop_scheduler m := by
  cases hr : m.scheduler_running <;>
    simp [start_scheduler, stop_scheduler, hr]

/-- C8 witness: the transitions on a concrete stopped manager. -/
theorem wm_C8_witness :
    (start_scheduler mgrEmpty).scheduler_running = true ∧
    start_scheduler (start_scheduler mgrEmpty) = start_scheduler mgrEmpty ∧
    stop_scheduler mgrEmpty = mgrEmpty := by
  have h := wm_C8_scheduler_flag mgrEmpty
  exact ⟨h.1, h.2.2.1, h.2.2.2.2.1 (by decide)⟩

/-! ## Claim C9: schedule time bounds -/

/-- C9 (amended): add_schedule rejects out-of-range times, leaving the state
unchanged, and preserves the hour/minute bounds of every schedule entry; the
corresponding bound for load_config does NOT hold (see the counterexample). -/
theorem wm_C9_add_schedule (m : WallpaperManager) (pn : String) (hour minute : Nat)
    (hinv : ∀ e ∈ m.schedule, e.hour ≤ 23 ∧ e.minute ≤ 59) :
    ((hour > 23 ∨ minute > 59) → add_schedule m pn hour minute = (false, m)) ∧
    (∀ e ∈ (add_schedule m pn hour minute).2.schedule, e.hour ≤ 23 ∧ e.minute ≤ 59) := by
  constructor
  · intro h
    by_cases hc : containsKeyA m.profiles pn = false <;> simp [add_schedule, hc, h]
  · intro e he
    by_cases hc : containsKeyA m.profiles pn = false
    · exact hinv e (by simpa [add_schedule, hc] using he)
    · by_cases ht : hour > 23 ∨ minute > 59
      · exact hinv e (by simpa [add_schedule, hc, ht] using he)
      · push_neg at ht
        have hstep : add_schedule m pn hour minute
            = (true, { m with schedule := m.schedule ++ [⟨pn, hour, minute, true⟩] }) := by
          simp only [add_schedule, if_neg hc, if_neg (by omega : ¬ (hour > 23 ∨ minute > 59))]
        rw [hstep] at he
        simp only [List.mem_append, List.mem_singleton] at he
        rcases he with he | he
        · exact hinv e he
        · subst he; exact ⟨ht.1, ht.2⟩

/-- C9 counterexample: load_config accepts the schedule line p,99,0,1 whose
hour 99 violates the claimed bound, so entries arriving via load_config do
not all satisfy hour ∈ [0,23]. -/
theorem wm_C9_counterexample :
    (load_config mgrEmpty (some "[SCHEDULE]\np,99,0,1\n")).2.schedule
      = [⟨"p", 99, 0, true⟩] ∧
    ((load_config mgrEmpty (some "[SCHEDULE]\np,99,0,1\n")).2.schedule.all
      (fun e => decide (e.hour ≤ 23))) = false := by
  constructor <;> decide

/-- C9 witness: the amended theorem applied to a concrete in-range and a
concrete out-of-range addition. -/
theorem wm_C9_witness :
    add_schedule mgrApply "p" 25 0 = (false, mgrApply) ∧
    (∀ e ∈ (add_schedule mgrApply "p" 8 15 ).2.schedule, e.hour ≤ 23 ∧ e.minute ≤ 59) := by
  constructor
  · exact (wm_C9_add_schedule mgrApply "p" 25 0 (by decide)).1 (by omega)
  · exact (wm_C9_add_schedule mgrApply "p" 8 15 (by decide)).2

/-! ## Claim C10: refresh_monitors indexing precondition -/

theorem refresh_overwrite_none_iff :
    ∀ (ids : List String) (ms : List MonitorInfo),
    refresh_overwrite ms ids = none ↔ ms.length < ids.length := by
  intro ids
  induction ids with
  | nil => intro ms; simp [refresh_overwrite]
  | cons id rest ih =>
    intro ms
    cases ms with
    | nil => simp [refresh_overwrite]
    | cons mon ms' =>
      simp only [refresh_overwrite, List.length_cons]
      cases h : refresh_overwrite ms' rest with
      | none =>
        have hlt := (ih ms').mp h
        constructor
        · intro _
          omega
        · intro _
          rfl
      | some ms2 =>
        constructor
        · intro hc
          exact Option.noConfusion hc
        · intro hlt
          have hn : refresh_overwrite ms' rest = none := (ih ms').mpr (by omega)
          rw [hn] at h
          exact Option.noConfusion h

theorem resolveIds_length (monitors : List MonitorInfo) :
    ∀ (ids : List String) (i : Nat), (resolveIds monitors ids i).length = ids.length := by
  intro ids
  induction ids with
  | nil => intro i; rfl
  | cons id rest ih => intro i; simp [resolveIds, ih]

/-- C10: with the engine reporting identifier list ids, refresh_monitors
panics (returns none) exactly when ids outnumber the enumerated monitors;
in particular it is total whenever the engine reports at most as many
identifiers as there are monitors. -/
theorem wm_C10_refresh_monitors (enumd : List MonitorInfo) (eng : WallpaperEngine)
    (ids : List String) (h : eng.monitor_ids = some ids) :
    (refresh_monitors enumd (some eng) = none ↔ enumd.length < ids.length) := by
  simp only [refresh_monitors, get_desktop_wallpaper_monitor_ids, h]
  rw [refresh_overwrite_none_iff]
  simp [resolveIds_length]

/-- C10 witness: one engine identifier against zero monitors panics; one
identifier against one monitor is total. -/
theorem wm_C10_witness :
    refresh_monitors [] (some ⟨some ["a"], fun _ _ => true⟩) = none ∧
    refresh_monitors [⟨"d", true⟩] (some ⟨some ["a"], fun _ _ => true⟩) ≠ none := by
  constructor
  · exact (wm_C10_refresh_monitors [] ⟨some ["a"], fun _ _ => true⟩ ["a"] rfl).mpr (by decide)
  · intro hc
    have h2 := (wm_C10_refresh_monitors [⟨"d", true⟩] ⟨some ["a"], fun _ _ => true⟩ ["a"] rfl).mp hc
    simp at h2

/-! ## Claim C2: set_wallpaper_in_profile validation -/

theorem extRejected_iff (wp : String) :
    extRejected wp = true ↔
      ∃ e, extensionOf wp = some e ∧ supportedExt (lowerStr e) = false := by
  cases hx : extensionOf wp with
  | none => simp [extRejected, hx]
  | some e0 => simp [extRejected, hx]

/-- C2: the assignment fails exactly when the profile is absent, the path
does not exist, the path's extension (when present) is outside the
case-insensitive whitelist, or no known monitor carries the device name; on
failure the whole state is untouched, and on success the mapping for the
device is inserted or overwritten with everything else unchanged. -/
theorem wm_C2_assign (fs : String → Bool) (m : WallpaperManager) (pn dn wp : String) :
    ((set_wallpaper_in_profile fs m pn dn wp).1 = false ↔
      containsKeyA m.profiles pn = false ∨ fs wp = false ∨
      (∃ e, extensionOf wp = some e ∧ supportedExt (lowerStr e) = false) ∨
      m.monitors.any (fun mon => mon.device_name == dn) = false) ∧
    ((set_wallpaper_in_profile fs m pn dn wp).1 = false →
      (set_wallpaper_in_profile fs m pn dn wp).2 = m) ∧
    ((set_wallpaper_in_profile fs m pn dn wp).1 = true →
      lookupWallpaper (set_wallpaper_in_profile fs m pn dn wp).2 pn dn = some wp ∧
      (∀ d, d ≠ dn → lookupWallpaper (set_wallpaper_in_profile fs m pn dn wp).2 pn d
        = lookupWallpaper m pn d) ∧
      (∀ q, q ≠ pn → lookupA (set_wallpaper_in_profile fs m pn dn wp).2.profiles q
        = lookupA m.profiles q) ∧
      (set_wallpaper_in_profile fs m pn dn wp).2.monitors = m.monitors ∧
      (set_wallpaper_in_profile fs m pn dn wp).2.schedule = m.schedule) := by
  by_cases h1 : containsKeyA m.profiles pn = false
  · have hr : set_wallpaper_in_profile fs m pn dn wp = (false, m) := by
      simp [set_wallpaper_in_profile, h1]
    simp [hr, h1]
  · by_cases h2 : fs wp = false
    · have hr : set_wallpaper_in_profile fs m pn dn wp = (false, m) := by
        simp [set_wallpaper_in_profile, h1, h2]
      simp [hr, h2]
    · by_cases h3 : extRejected wp = true
      · have hr : set_wallpaper_in_profile fs m pn dn wp = (false, m) := by
          simp [set_wallpaper_in_profile, h1, h2, h3]
        have hex := extRejected_iff wp |>.mp h3
        simp [hr, hex]
      · by_cases h4 : m.monitors.any (fun mon => mon.device_name == dn) = false
        · have hr : set_wallpaper_in_profile fs m pn dn wp = (false, m) := by
            simp [set_wallpaper_in_profile, h1, h2, h3, h4]
          simp [hr, h4]
        · have hb1 : containsKeyA m.profiles pn = true := by
            revert h1; cases containsKeyA m.profiles pn <;> simp
          have hext : extRejected wp = false := by
            revert h3; cases extRejected wp <;> simp
          have hne : ¬ ∃ e, extensionOf wp = some e ∧ supportedExt (lowerStr e) = false :=
            fun hex => by rw [(extRejected_iff wp).mpr hex] at hext; cases hext
          obtain ⟨p, hp⟩ : ∃ p, lookupA m.profiles pn = some p := by
            have := hb1
            unfold containsKeyA at this
            exact Option.isSome_iff_exists.mp this
          have hstep : set_wallpaper_in_profile fs m pn dn wp
              = (true, { m with profiles := modifyA pn (fun q => { q with monitor_wallpapers := insertA dn wp q.monitor_wallpapers }) m.profiles }) := by
            simp [set_wallpaper_in_profile, h1, h2, h3, h4]
          rw [hstep]
          refine ⟨by simp [h1, h2, h4, hne], by simp, fun _ => ⟨?_, ?_, ?_, rfl, rfl⟩⟩
          · simp only [lookupWallpaper, lookupA_modifyA_self, hp, Option.map_some',
              Option.bind_some]
            exact lookupA_insertA_self _ _ _
          · intro d hd
            simp only [lookupWallpaper, lookupA_modifyA_self, hp, Option.map_some',
              Option.bind_some]
            exact lookupA_insertA_ne _ _ _ _ hd
          · intro q hq
            exact lookupA_modifyA_ne _ _ _ _ hq

/-- C2 witness: on a store with monitor DISP1 and profile p, assigning an
existing path photo.PNG succeeds (case-insensitive extension) and records the
mapping; assigning the existing path photo.webp fails; assigning to an
unknown device or a missing file fails and leaves the state unchanged. -/
theorem wm_C2_witness :
    (set_wallpaper_in_profile fsW mgrAssign "p" "DISP1" "photo.PNG").1 = true ∧
    lookupWallpaper (set_wallpaper_in_profile fsW mgrAssign "p" "DISP1" "photo.PNG").2
      "p" "DISP1" = some "photo.PNG" ∧
    (set_wallpaper_in_profile fsW mgrAssign "p" "DISP1" "photo.webp").1 = false ∧
    (set_wallpaper_in_profile fsW mgrAssign "p" "DISP1" "photo.webp").2 = mgrAssign ∧
    (set_wallpaper_in_profile fsW mgrAssign "p" "GHOST" "photo.PNG").1 = false ∧
    (set_wallpaper_in_profile fsW mgrAssign "p" "DISP1" "missing.png").1 = false := by
  have hgood := wm_C2_assign fsW mgrAssign "p" "DISP1" "photo.PNG"
  have hwebp := wm_C2_assign fsW mgrAssign "p" "DISP1" "photo.webp"
  have hghost := wm_C2_assign fsW mgrAssign "p" "GHOST" "photo.PNG"
  have hmiss := wm_C2_assign fsW mgrAssign "p" "DISP1" "missing.png"
  have hg1 : (set_wallpaper_in_profile fsW mgrAssign "p" "DISP1" "photo.PNG").1 = true := by
    cases hb : (set_wallpaper_in_profile fsW mgrAssign "p" "DISP1" "photo.PNG").1
    · exfalso
      rcases hgood.1.mp hb with hc | hc | ⟨e, he, hs⟩ | hc
      · exact absurd hc (by decide)
      · exact absurd hc (by decide)
      · rw [show extensionOf "photo.PNG" = some "PNG" from by decide] at he
        cases he
        exact absurd hs (by decide)
      · exact absurd hc (by decide)
    · rfl
  have hw1 : (set_wallpaper_in_profile fsW mgrAssign "p" "DISP1" "photo.webp").1 = false :=
    hwebp.1.mpr (Or.inr (Or.inr (Or.inl ⟨"webp", by decide, by decide⟩)))
  refine ⟨hg1, (hgood.2.2 hg1).1, hw1, hwebp.2.1 hw1, ?_, ?_⟩
  · exact hghost.1.mpr (Or.inr (Or.inr (Or.inr (by decide))))
  · exact hmiss.1.mpr (Or.inr (Or.inl (by decide)))

/-! ## Claim C4: the wallpaper setter's matching loop and fallback -/

theorem tier1Go_eq (set_ok : String → String → Bool) (dn wp : String) :
    ∀ (ids : List String) (i : Nat),
    tier1Go set_ok dn wp ids i
      = ((matchedIds dn ids i).any (fun id => set_ok id wp),
         firstSuccessCut (fun id => set_ok id wp) (matchedIds dn ids i)) := by
  intro ids
  induction ids with
  | nil => intro i; rfl
  | cons id rest ih =>
    intro i
    by_cases hm : matchesAt dn i id = true
    · by_cases hs : set_ok id wp = true
      · simp [tier1Go, matchedIds, hm, hs, firstSuccessCut]
      · simp [tier1Go, matchedIds, hm, hs, firstSuccessCut, ih]
    · simp [tier1Go, matchedIds, hm, ih]

/-- C4: with identifiers ids freshly enumerated, the setter returns true iff
some identifier matching by the claim's rule (equality, containment either
way, or index 0) accepts the wallpaper, OR — when no such tier-1 attempt
succeeds — the engine accepts the device name passed directly as an
identifier; the invocation trace equals the matched identifiers truncated
just after the first success, so the loop stops immediately there; the
with-fallback wrapper adds nothing. -/
theorem wm_C4_setter (eng : WallpaperEngine) (ids : List String) (dn wp : String)
    (h : eng.monitor_ids = some ids) :
    (set_wallpaper_for_monitor (some eng) dn wp
      = (((matchedIds dn ids 0).any (fun id => eng.set_ok id wp)) || eng.set_ok dn wp)) ∧
    ((tier1Go eng.set_ok dn wp ids 0).2
      = firstSuccessCut (fun id => eng.set_ok id wp) (matchedIds dn ids 0)) ∧
    (set_wallpaper_for_monitor_with_fallback (some eng) dn wp
      = set_wallpaper_for_monitor (some eng) dn wp) := by
  refine ⟨?_, ?_, ?_⟩
  · simp only [set_wallpaper_for_monitor, h]
    rw [tier1Go_eq]
    cases hany : (matchedIds dn ids 0).any (fun id => eng.set_ok id wp) <;> simp
  · rw [tier1Go_eq]
  · simp only [set_wallpaper_for_monitor_with_fallback]
    cases hs : set_wallpaper_for_monitor (some eng) dn wp <;> simp

/-- C4 witness: for a device matching no identifier, only index 0 is matched
(and attempted); its failure plus the direct-name failure yields false — the
succeeding identifier Y is never tried because it does not match. -/
theorem wm_C4_witness :
    set_wallpaper_for_monitor (some engW) "nomatch" "w"
      = (((matchedIds "nomatch" ["X", "Y"] 0).any (fun id => engW.set_ok id "w"))
          || engW.set_ok "nomatch" "w") ∧
    (tier1Go engW.set_ok "nomatch" "w" ["X", "Y"] 0).2 = ["X"] := by
  have h := wm_C4_setter engW ["X", "Y"] "nomatch" "w" rfl
  refine ⟨h.1, ?_⟩
  rw [h.2.1]
  decide

/-! ## Claim C5: resolver correlation -/

theorem correlate_eq_find (idStr : String) (fb : String) :
    ∀ monitors : List MonitorInfo,
    correlate monitors idStr.data fb
      = (match monitors.find? (correlHit idStr) with
         | some mon => mon.device_name
         | none => fb) := by
  intro monitors
  induction monitors with
  | nil => rfl
  | cons mon rest ih =>
    cases hs : stripPre osDevicePre mon.device_name.data with
    | none =>
      have hcf : ¬ (correlHit idStr mon = true) := by simp [correlHit, hs]
      simp only [correlate, hs]
      rw [List.find?_cons_of_neg _ hcf]
      exact ih
    | some part =>
      by_cases hc : listContains idStr.data part = true
      · have hcf : correlHit idStr mon = true := by simp [correlHit, hs, hc]
        simp only [correlate, hs, hc, if_true]
        rw [List.find?_cons_of_pos _ hcf]
      · have hcf : ¬ (correlHit idStr mon = true) := by
          simp only [correlHit, hs]
          simpa using hc
        simp only [correlate, hs, if_neg hc]
        rw [List.find?_cons_of_neg _ hcf]
        exact ih

theorem resolveIds_get? (monitors : List MonitorInfo) :
    ∀ (ids : List String) (i k : Nat) (id : String),
    ids.get? k = some id →
    (resolveIds monitors ids i).get? k = some (displayNameSpec monitors (i + k) id, id) := by
  intro ids
  induction ids with
  | nil => intro i k id h; simp at h
  | cons x rest ih =>
    intro i k id h
    cases k with
    | zero =>
      rw [List.get?_cons_zero] at h
      obtain rfl : x = id := Option.some.inj h
      simp only [resolveIds, List.get?_cons_zero, Option.some.injEq]
      rw [correlate_eq_find]
      simp [displayNameSpec]
    | succ k2 =>
      rw [List.get?_cons_succ] at h
      simp only [resolveIds, List.get?_cons_succ]
      have hrec := ih (i + 1) k2 id h
      have harith : i + 1 + k2 = i + (k2 + 1) := by omega
      rw [harith] at hrec
      exact hrec

/-- C5: with no engine capability the resolver yields the empty sequence;
otherwise it yields exactly one pair per engine identifier, in order, whose
second component is that identifier and whose first component is the device
name of the first known monitor correlating by the strip-and-contain rule,
or the 1-based fallback Monitor i+1 when none correlates. -/
theorem wm_C5_resolver (monitors : List MonitorInfo) (eng : WallpaperEngine)
    (ids : List String) (h : eng.monitor_ids = some ids) :
    get_desktop_wallpaper_monitor_ids none monitors = [] ∧
    (get_desktop_wallpaper_monitor_ids (some eng) monitors).length = ids.length ∧
    (∀ k id, ids.get? k = some id →
      (get_desktop_wallpaper_monitor_ids (some eng) monitors).get? k
        = some (displayNameSpec monitors k id, id)) := by
  refine ⟨rfl, ?_, ?_⟩
  · simp only [get_desktop_wallpaper_monitor_ids, h]
    exact resolveIds_length monitors ids 0
  · intro k id hk
    simp only [get_desktop_wallpaper_monitor_ids, h]
    have hres := resolveIds_get? monitors ids 0 k id hk
    simpa using hres

/-- C5 witness: the spec's worked example — an identifier containing the
stripped device part DISPLAY1 correlates to that monitor's device name, and
an identifier matching nothing falls back to Monitor 2; both identifiers are
returned. -/
theorem wm_C5_witness :
    (get_desktop_wallpaper_monitor_ids (some engRes) monsRes).get? 0
      = some ("\\\\.\\DISPLAY1", "AAA_DISPLAY1_BBB") ∧
    (get_desktop_wallpaper_monitor_ids (some engRes) monsRes).get? 1
      = some ("Monitor 2", "ZZZ") ∧
    (get_desktop_wallpaper_monitor_ids (some engRes) monsRes).length = 2 := by
  have h := wm_C5_resolver monsRes engRes ["AAA_DISPLAY1_BBB", "ZZZ"] rfl
  refine ⟨?_, ?_, h.2.1⟩
  · rw [h.2.2 0 "AAA_DISPLAY1_BBB" (by decide)]
    decide
  · rw [h.2.2 1 "ZZZ" (by decide)]
    decide

/-! ## String and splitting lemmas for the config codec -/

theorem strOf_data (s : String) : strOf s.data = s := rfl

theorem data_ne_nil (s : String) (h : s ≠ "") : s.data ≠ [] := by
  intro hd
  apply h
  cases s with
  | mk l => cases hd; rfl

theorem splitChAux_nosep (d : Char) (l : List Char) (h : d ∉ l) : splitChAux d l = (l, []) := by
  induction l with
  | nil => rfl
  | cons c rest ih =>
    simp only [List.mem_cons, not_or] at h
    have hcd : ¬ (c = d) := fun hh => h.1 hh.symm
    simp [splitChAux, hcd, ih h.2]

theorem splitChAux_append (d : Char) (l rest : List Char) (h : d ∉ l) :
    splitChAux d (l ++ d :: rest) = (l, (splitChAux d rest).1 :: (splitChAux d rest).2) := by
  induction l with
  | nil => simp [splitChAux]
  | cons c l2 ih =>
    simp only [List.mem_cons, not_or] at h
    have hcd : ¬ (c = d) := fun hh => h.1 hh.symm
    simp [splitChAux, hcd, ih h.2]

theorem splitCh_append (d : Char) (l rest : List Char) (h : d ∉ l) :
    splitCh d (l ++ d :: rest) = l :: splitCh d rest := by
  simp [splitCh, splitChAux_append d l rest h]

theorem splitCh_nosep (d : Char) (l : List Char) (h : d ∉ l) : splitCh d l = [l] := by
  simp [splitCh, splitChAux_nosep d l h]

theorem splitFirst_append (d : Char) (a b : List Char) (h : d ∉ a) :
    splitFirst d (a ++ d :: b) = some (a, b) := by
  induction a with
  | nil => simp [splitFirst]
  | cons c a2 ih =>
    simp only [List.mem_cons, not_or] at h
    have hcd : ¬ (c = d) := fun hh => h.1 hh.symm
    simp [splitFirst, hcd, ih h.2]

theorem splitCh_joinNl (ls : List (List Char)) (h : ∀ l ∈ ls, '\n' ∉ l) :
    splitCh '\n' (joinNl ls) = ls ++ [[]] := by
  induction ls with
  | nil => rfl
  | cons l rest ih =>
    have h1 : '\n' ∉ l := h l (by simp)
    have h2 : ∀ x ∈ rest, '\n' ∉ x := fun x hx => h x (by simp [hx])
    show splitCh '\n' (l ++ '\n' :: joinNl rest) = (l :: rest) ++ [[]]
    rw [splitCh_append _ _ _ h1, ih h2]
    rfl

theorem finishLines_concat (ls : List (List Char)) :
    finishLines (ls ++ [[]]) = ls.map stripCR := by
  induction ls with
  | nil => rfl
  | cons l rest ih =>
    cases rest with
    | nil => rfl
    | cons l2 rest2 =>
      show finishLines (l :: (l2 :: rest2) ++ [[]]) = stripCR l :: (l2 :: rest2).map stripCR
      rw [← ih]
      rfl

theorem stripCR_eq_self (l : List Char) (h : l.getLast? ≠ some '\r') : stripCR l = l := by
  simp [stripCR, h]

theorem map_stripCR_id (ls : List (List Char)) (h : ∀ l ∈ ls, l.getLast? ≠ some '\r') :
    ls.map stripCR = ls := by
  induction ls with
  | nil => rfl
  | cons l rest ih =>
    simp only [List.map_cons, stripCR_eq_self l (h l (by simp)),
      ih (fun x hx => h x (by simp [hx]))]

theorem rustLinesL_joinNl (ls : List (List Char))
    (h1 : ∀ l ∈ ls, '\n' ∉ l) (h2 : ∀ l ∈ ls, l.getLast? ≠ some '\r') :
    rustLinesL (joinNl ls) = ls := by
  unfold rustLinesL
  rw [splitCh_joinNl ls h1, finishLines_concat, map_stripCR_id ls h2]

/-! ## Decimal printing and parsing lemmas -/

theorem natPrintAux_congr :
    ∀ (f1 f2 n : Nat), n < f1 → n < f2 → natPrintAux f1 n = natPrintAux f2 n := by
  intro f1
  induction f1 with
  | zero => intro f2 n h1 _; omega
  | succ f ih =>
    intro f2 n h1 h2
    cases f2 with
    | zero => omega
    | succ f2' =>
      simp only [natPrintAux]
      by_cases hn : n < 10
      · simp [hn]
      · have h10 : n / 10 < n := Nat.div_lt_self (by omega) (by omega)
        simp only [if_neg hn]
        rw [ih f2' (n / 10) (by omega) (by omega)]

theorem natPrint_eq (n : Nat) :
    natPrint n = if n < 10 then [digitChar n] else natPrint (n / 10) ++ [digitChar (n % 10)] := by
  have h1 : natPrint n = natPrintAux (n + 1) n := rfl
  rw [h1]
  by_cases hn : n < 10
  · simp [natPrintAux, hn]
  · have h10 : n / 10 < n := Nat.div_lt_self (by omega) (by omega)
    rw [show natPrintAux (n + 1) n = natPrintAux n (n / 10) ++ [digitChar (n % 10)] from by
      simp [natPrintAux, hn]]
    rw [if_neg hn]
    rw [natPrintAux_congr n (n / 10 + 1) (n / 10) (by omega) (by omega)]
    rfl

theorem natPrint_ne_nil (n : Nat) : natPrint n ≠ [] := by
  rw [natPrint_eq]
  by_cases hn : n < 10 <;> simp [hn]

theorem natPrint_digits (n : Nat) : ∀ c ∈ natPrint n, ∃ d, d < 10 ∧ c = digitChar d := by
  induction n using Nat.strong_induction_on with
  | _ n ih =>
    intro c hc
    rw [natPrint_eq] at hc
    by_cases hn : n < 10
    · rw [if_pos hn] at hc
      simp only [List.mem_singleton] at hc
      exact ⟨n, hn, hc⟩
    · rw [if_neg hn] at hc
      rcases List.mem_append.mp hc with hm | hm
      · exact ih (n / 10) (Nat.div_lt_self (by omega) (by omega)) c hm
      · simp only [List.mem_singleton] at hm
        exact ⟨n % 10, Nat.mod_lt _ (by omega), hm⟩

theorem digitVal_digitChar (d : Nat) (h : d < 10) : digitVal (digitChar d) = some d := by
  interval_cases d <;> decide

theorem digitChar_ne_special (d : Nat) (h : d < 10) :
    digitChar d ≠ ',' ∧ digitChar d ≠ '\n' ∧ digitChar d ≠ '+' ∧ digitChar d ≠ '\r' := by
  interval_cases d <;> refine ⟨by decide, by decide, by decide, by decide⟩

theorem comma_not_mem_natPrint (n : Nat) : ',' ∉ natPrint n := by
  intro hc
  obtain ⟨d, hd, he⟩ := natPrint_digits n ',' hc
  exact (digitChar_ne_special d hd).1 he.symm

theorem newline_not_mem_natPrint (n : Nat) : '\n' ∉ natPrint n := by
  intro hc
  obtain ⟨d, hd, he⟩ := natPrint_digits n '\n' hc
  exact (digitChar_ne_special d hd).2.1 he.symm

theorem parseDigitsGo_append (xs ys : List Char) :
    ∀ a, parseDigitsGo (xs ++ ys) a
      = match parseDigitsGo xs a with
        | some b => parseDigitsGo ys b
        | none => none := by
  induction xs with
  | nil => intro a; rfl
  | cons c xs2 ih =>
    intro a
    simp only [List.cons_append, parseDigitsGo]
    cases hdv : digitVal c with
    | none => rfl
    | some d => exact ih _

theorem parseDigitsGo_natPrint (n : Nat) :
    ∀ a, parseDigitsGo (natPrint n) a = some (a * 10 ^ (natPrint n).length + n) := by
  induction n using Nat.strong_induction_on with
  | _ n ih =>
    intro a
    rw [natPrint_eq]
    by_cases hn : n < 10
    · rw [if_pos hn]
      simp [parseDigitsGo, digitVal_digitChar n hn]
    · rw [if_neg hn]
      rw [parseDigitsGo_append]
      rw [ih (n / 10) (Nat.div_lt_self (by omega) (by omega)) a]
      simp only [parseDigitsGo, digitVal_digitChar (n % 10) (Nat.mod_lt _ (by omega))]
      have hdm : n / 10 * 10 + n % 10 = n := by omega
      have hlen : (natPrint (n / 10) ++ [digitChar (n % 10)]).length
          = (natPrint (n / 10)).length + 1 := by simp
      rw [hlen, pow_succ]
      congr 1
      calc (a * 10 ^ (natPrint (n / 10)).length + n / 10) * 10 + n % 10
          = a * (10 ^ (natPrint (n / 10)).length * 10) + (n / 10 * 10 + n % 10) := by ring
        _ = a * (10 ^ (natPrint (n / 10)).length * 10) + n := by rw [hdm]

theorem parseDigits_natPrint (n : Nat) : parseDigits (natPrint n) = some n := by
  rcases hcs : natPrint n with _ | ⟨c, r⟩
  · exact absurd hcs (natPrint_ne_nil n)
  · have hgo := parseDigitsGo_natPrint n 0
    rw [hcs] at hgo
    show parseDigitsGo (c :: r) 0 = some n
    rw [hgo]
    simp

theorem natPrint_head_digit (n : Nat) :
    ∀ c, (natPrint n).head? = some c → c ≠ '+' ∧ c ≠ ',' ∧ c ≠ '\n' := by
  intro c hc
  have hmem : c ∈ natPrint n := by
    rcases hcs : natPrint n with _ | ⟨c0, r⟩
    · rw [hcs] at hc; cases hc
    · rw [hcs] at hc
      simp only [List.head?_cons, Option.some.injEq] at hc
      subst hc
      simp
  obtain ⟨d, hd, he⟩ := natPrint_digits n c hmem
  subst he
  have hs := digitChar_ne_special d hd
  exact ⟨hs.2.2.1, hs.1, hs.2.1⟩

theorem parseU32_natPrint (n : Nat) (h : n < 4294967296) : parseU32 (natPrint n) = some n := by
  have hhead : ¬ ((natPrint n).head? = some '+') := by
    intro hc
    exact (natPrint_head_digit n '+' hc).1 rfl
  simp only [parseU32, if_neg hhead, parseDigits_natPrint n]
  simp [h]

/-! ## load_config line-level lemmas -/

theorem processLine_profilesHeader (st : LoadState) :
    processLine st profilesHeader = { st with cur_section := "PROFILES" } := rfl

theorem processLine_scheduleHeader (st : LoadState) :
    processLine st scheduleHeader = { st with cur_section := "SCHEDULE" } := rfl

theorem processLine_profileHeaderLine (st : LoadState) (n : String)
    (hsec : st.cur_section = "PROFILES") :
    processLine st (profileHeaderLine n)
      = { st with cur_profile := n, profiles := insertA n ⟨n, []⟩ st.profiles } := by
  have h1 : ¬ (profileHeaderLine n = []) := by simp [profileHeaderLine]
  have h2 : ¬ ((profileHeaderLine n).head? = some '['
      ∧ (profileHeaderLine n).getLast? = some ']') := by
    intro hc
    have := hc.1
    simp [profileHeaderLine] at this
  simp only [processLine]
  rw [if_neg h1, if_neg h2, if_pos hsec]
  rfl

theorem processLine_deviceLine (st : LoadState) (d w : String)
    (hsec : st.cur_section = "PROFILES") (hcp : ¬ (st.cur_profile = ""))
    (hd : '=' ∉ d.data) :
    processLine st (deviceLine (d, w))
      = { st with profiles := modifyA st.cur_profile (fun p => { p with monitor_wallpapers := insertA d w p.monitor_wallpapers }) st.profiles } := by
  have h1 : ¬ (deviceLine (d, w) = []) := by simp [deviceLine]
  have h2 : ¬ ((deviceLine (d, w)).head? = some '['
      ∧ (deviceLine (d, w)).getLast? = some ']') := by
    intro hc
    have := hc.1
    simp [deviceLine] at this
  simp only [processLine]
  rw [if_neg h1, if_neg h2, if_pos hsec]
  show processProfileLine st (' ' :: ' ' :: (d.data ++ '=' :: w.data)) = _
  simp only [processProfileLine]
  rw [if_neg hcp, splitFirst_append '=' d.data w.data hd]
  rfl

theorem scheduleLine_getLast (e : ScheduleEntry) :
    (scheduleLine e).getLast? = some (if e.enabled then '1' else '0') := by
  simp only [scheduleLine]
  rw [List.getLast?_append_cons]
  cases e.enabled <;> rfl

theorem splitCh_scheduleLine (e : ScheduleEntry) (hnm : ',' ∉ e.profile_name.data) :
    splitCh ',' (scheduleLine e)
      = [e.profile_name.data, natPrint e.hour, natPrint e.minute,
         if e.enabled then ['1'] else ['0']] := by
  have hA : ',' ∉ natPrint e.hour := comma_not_mem_natPrint e.hour
  have hB : ',' ∉ natPrint e.minute := comma_not_mem_natPrint e.minute
  have hC : ',' ∉ (if e.enabled then ['1'] else ['0']) := by
    cases e.enabled <;> decide
  have hshape : scheduleLine e
      = e.profile_name.data ++ ',' :: (natPrint e.hour ++ ',' :: (natPrint e.minute ++ ',' :: (if e.enabled then ['1'] else ['0']))) := by
    simp [scheduleLine]
  rw [hshape, splitCh_append _ _ _ hnm, splitCh_append _ _ _ hA, splitCh_append _ _ _ hB,
    splitCh_nosep _ _ hC]

theorem processLine_scheduleLine (st : LoadState) (e : ScheduleEntry)
    (hsec : st.cur_section = "SCHEDULE")
    (hnm : ',' ∉ e.profile_name.data)
    (hh : e.hour < 4294967296) (hm : e.minute < 4294967296) :
    processLine st (scheduleLine e) = { st with schedule := st.schedule ++ [e] } := by
  have h1 : ¬ (scheduleLine e = []) := by
    simp only [scheduleLine]
    intro hc
    rcases List.append_eq_nil.mp hc with ⟨_, h4⟩
    cases h4
  have h2 : ¬ ((scheduleLine e).head? = some '['
      ∧ (scheduleLine e).getLast? = some ']') := by
    intro hc
    have hl := hc.2
    rw [scheduleLine_getLast] at hl
    cases he : e.enabled <;> rw [he] at hl <;> simp at hl
  have hsecne : ¬ (st.cur_section = "PROFILES") := by
    rw [hsec]; decide
  simp only [processLine]
  rw [if_neg h1, if_neg h2, if_neg hsecne, if_pos hsec]
  simp only [processScheduleLine, splitCh_scheduleLine e hnm]
  rw [parseU32_natPrint e.hour hh, parseU32_natPrint e.minute hm]
  obtain ⟨pn, hr, mi, en⟩ := e
  cases en <;> rfl

/-! ## load_config block-level lemmas -/

theorem foldl_deviceLines (n : String) (hn : ¬ (n = ""))
    (pre : List (String × WallpaperProfile)) (hpre : lookupA pre n = none) :
    ∀ (wps : List (String × String)) (st : LoadState) (acc : List (String × String)),
    st.cur_section = "PROFILES" → st.cur_profile = n →
    st.profiles = pre ++ [(n, ⟨n, acc⟩)] →
    ((acc ++ wps).map Prod.fst).Nodup →
    (∀ dw ∈ wps, '=' ∉ dw.1.data) →
    (wps.map deviceLine).foldl processLine st
      = { st with profiles := pre ++ [(n, ⟨n, acc ++ wps⟩)] } := by
  intro wps
  induction wps with
  | nil =>
    intro st acc hsec hcp hprof _ _
    simp only [List.map_nil, List.foldl_nil, List.append_nil]
    rw [← hprof]
  | cons dw wps2 ih =>
    intro st acc hsec hcp hprof hnodup hfree
    obtain ⟨d, w⟩ := dw
    have hcpne : ¬ (st.cur_profile = "") := by rw [hcp]; exact hn
    have hdfree : '=' ∉ d.data := hfree (d, w) (by simp)
    have hdacc : d ∉ acc.map Prod.fst := by
      have hnd := hnodup
      rw [List.map_append] at hnd
      have hdis := (List.nodup_append.mp hnd).2.2
      exact fun hmem => hdis hmem (by simp)
    have hmod : modifyA st.cur_profile (fun p => { p with monitor_wallpapers := insertA d w p.monitor_wallpapers }) st.profiles
        = pre ++ [(n, ⟨n, acc ++ [(d, w)]⟩)] := by
      rw [hcp, hprof, modifyA_append_none pre _ n _ hpre]
      simp only [modifyA, eq_self_iff_true, if_true]
      rw [insertA_of_lookupA_none acc d w (lookupA_eq_none_of_not_mem acc d hdacc)]
    simp only [List.map_cons, List.foldl_cons]
    rw [processLine_deviceLine st d w hsec hcpne hdfree, hmod]
    rw [ih { st with profiles := pre ++ [(n, ⟨n, acc ++ [(d, w)]⟩)] } (acc ++ [(d, w)])
      hsec hcp rfl (by simpa using hnodup) (fun x hx => hfree x (by simp [hx]))]
    simp

theorem foldl_blocks :
    ∀ (ps : List (String × WallpaperProfile)) (st : LoadState),
    st.cur_section = "PROFILES" →
    (ps.map Prod.fst).Nodup →
    (∀ np ∈ ps, lookupA st.profiles np.1 = none) →
    (∀ np ∈ ps, ¬ (np.1 = "")) →
    (∀ np ∈ ps, (np.2.monitor_wallpapers.map Prod.fst).Nodup) →
    (∀ np ∈ ps, ∀ dw ∈ np.2.monitor_wallpapers, '=' ∉ dw.1.data) →
    (ps.flatMap profileBlock).foldl processLine st
      = (⟨st.profiles ++ ps.map (fun np => (np.1, ⟨np.1, np.2.monitor_wallpapers⟩)),
          st.schedule, st.cur_section, (ps.map Prod.fst).getLastD st.cur_profile⟩ : LoadState) := by
  intro ps
  induction ps with
  | nil =>
    intro st _ _ _ _ _ _
    simp only [List.flatMap_nil, List.foldl_nil, List.map_nil, List.append_nil,
      List.getLastD_nil]
  | cons np rest ih =>
    intro st hsec hnodup hlook hne hwnd hwfree
    obtain ⟨n, prof⟩ := np
    have hlookn : lookupA st.profiles n = none := hlook (n, prof) (by simp)
    have hnodup2 : (rest.map Prod.fst).Nodup := by
      simp only [List.map_cons, List.nodup_cons] at hnodup
      exact hnodup.2
    have hnmem : n ∉ rest.map Prod.fst := by
      simp only [List.map_cons, List.nodup_cons] at hnodup
      exact hnodup.1
    have hstep := processLine_profileHeaderLine st n hsec
    rw [insertA_of_lookupA_none st.profiles n ⟨n, []⟩ hlookn] at hstep
    have hdev := foldl_deviceLines n (hne (n, prof) (by simp)) st.profiles hlookn
      prof.monitor_wallpapers
      { st with cur_profile := n, profiles := st.profiles ++ [(n, ⟨n, []⟩)] }
      [] hsec rfl rfl (by simpa using hwnd (n, prof) (by simp))
      (fun dw hdw => hwfree (n, prof) (by simp) dw hdw)
    simp only [List.nil_append] at hdev
    simp only [List.flatMap_cons, profileBlock, List.foldl_append, List.foldl_cons]
    rw [hstep, hdev]
    have hlk : ∀ np2 ∈ rest,
        lookupA (st.profiles ++ [(n, (⟨n, prof.monitor_wallpapers⟩ : WallpaperProfile))]) np2.1
          = none := by
      intro np2 hnp2
      rw [lookupA_append_none _ _ _ (hlook np2 (by simp [hnp2]))]
      have hne2 : ¬ (n = np2.1) := by
        intro hc
        exact hnmem (hc ▸ List.mem_map_of_mem Prod.fst hnp2)
      simp [lookupA, hne2]
    have hih := ih ⟨st.profiles ++ [(n, ⟨n, prof.monitor_wallpapers⟩)], st.schedule, st.cur_section, n⟩
      hsec hnodup2 hlk (fun x hx => hne x (by simp [hx]))
      (fun x hx => hwnd x (by simp [hx])) (fun x hx dw hdw => hwfree x (by simp [hx]) dw hdw)
    rw [hih]
    simp only [List.map_cons, List.getLastD_cons, List.append_assoc, List.singleton_append]

theorem foldl_schedLines :
    ∀ (es : List ScheduleEntry) (st : LoadState),
    st.cur_section = "SCHEDULE" →
    (∀ e ∈ es, ',' ∉ e.profile_name.data ∧ e.hour < 4294967296 ∧ e.minute < 4294967296) →
    (es.map scheduleLine).foldl processLine st = { st with schedule := st.schedule ++ es } := by
  intro es
  induction es with
  | nil =>
    intro st _ _
    simp only [List.map_nil, List.foldl_nil, List.append_nil]
  | cons e es2 ih =>
    intro st hsec hes
    obtain ⟨h1, h2, h3⟩ := hes e (by simp)
    simp only [List.map_cons, List.foldl_cons]
    rw [processLine_scheduleLine st e hsec h1 h2 h3]
    rw [ih { st with schedule := st.schedule ++ [e] } hsec (fun x hx => hes x (by simp [hx]))]
    simp

/-! ## save_config line well-formedness -/

theorem saveLines_wf (m : WallpaperManager) (h : RoundTripSafe m) :
    ∀ l ∈ saveLines m, '\n' ∉ l ∧ l.getLast? ≠ some '\r' := by
  obtain ⟨hnodup, hnames, hpn, hdev, hsch⟩ := h
  intro l hl
  simp only [saveLines, List.mem_cons, List.mem_append, List.mem_flatMap, List.mem_map] at hl
  rcases hl with rfl | hl
  · exact ⟨by decide, by decide⟩
  rcases hl with ⟨np, hnp, hblk⟩ | hl
  · simp only [profileBlock, List.mem_cons, List.mem_map] at hblk
    rcases hblk with rfl | ⟨dw, hdw, rfl⟩
    · obtain ⟨hne, hnl, hcr⟩ := hpn np hnp
      constructor
      · intro hc
        simp [profileHeaderLine, hnl] at hc
      · have hgl : (profileHeaderLine np.1).getLast? = np.1.data.getLast?.or (some ':') := by
          rw [show profileHeaderLine np.1 = ['P', 'R', 'O', 'F', 'I', 'L', 'E', ':'] ++ np.1.data
            from rfl, List.getLast?_append]
          rfl
        rw [hgl]
        cases hglv : np.1.data.getLast? with
        | none => simp
        | some c =>
          rw [hglv] at hcr
          simpa using hcr
    · obtain ⟨hdnl, hdeq, hwnl, hwcr⟩ := (hdev np hnp).2 dw hdw
      constructor
      · intro hc
        simp [deviceLine, hdnl, hwnl] at hc
      · have hshape : deviceLine dw = ([' ', ' '] ++ dw.1.data) ++ '=' :: dw.2.data := by
          simp [deviceLine]
        rw [hshape, List.getLast?_append_cons,
          show ('=' :: dw.2.data) = ['='] ++ dw.2.data from rfl, List.getLast?_append]
        cases hglv : dw.2.data.getLast? with
        | none => simp
        | some c =>
          rw [hglv] at hwcr
          simpa using hwcr
  rcases hl with rfl | ⟨e, he, rfl⟩
  · exact ⟨by decide, by decide⟩
  · obtain ⟨hsnl, hscomma, hhh, hmins⟩ := hsch e he
    constructor
    · intro hc
      have h2 := newline_not_mem_natPrint e.hour
      have h3 := newline_not_mem_natPrint e.minute
      have h4 : '\n' ∉ (if e.enabled then ['1'] else ['0']) := by cases e.enabled <;> decide
      simp [scheduleLine, hsnl, h2, h3, h4] at hc
    · rw [scheduleLine_getLast]
      cases e.enabled <;> simp

theorem map_norm_eq (ps : List (String × WallpaperProfile))
    (h : ∀ np ∈ ps, np.2.name = np.1) :
    ps.map (fun np => (np.1, (⟨np.1, np.2.monitor_wallpapers⟩ : WallpaperProfile))) = ps := by
  induction ps with
  | nil => rfl
  | cons np rest ih =>
    obtain ⟨n, p⟩ := np
    obtain ⟨pname, wps⟩ := p
    have h1 := h (n, ⟨pname, wps⟩) (by simp)
    simp only at h1
    subst h1
    rw [List.map_cons, ih (fun x hx => h x (by simp [hx]))]

/-! ## Claim C1: save/load round trip -/

/-- C1 (amended): for a manager whose profile names are unique, non-empty,
newline-free, not ending in a carriage return and coherent with their map
keys, whose device names are unique per profile, newline-free and free of
the `'='` delimiter, whose wallpaper paths are newline-free and do not end in
a carriage return, and whose schedule names are newline- and comma-free with
`u32`-ranged times, saving and loading into any manager reproduces the
profiles (names and per-profile device-to-path mappings) and the ordered
schedule exactly, and the load reports success. -/
theorem wm_C1_roundtrip (m mfresh : WallpaperManager) (h : RoundTripSafe m) :
    (load_config mfresh (some (save_config m))).1 = true ∧
    (load_config mfresh (some (save_config m))).2.profiles = m.profiles ∧
    (load_config mfresh (some (save_config m))).2.schedule = m.schedule := by
  have hwf := saveLines_wf m h
  obtain ⟨hnodup, hnames, hpn, hdev, hsch⟩ := h
  have hlines : rustLinesL (save_config m).data = saveLines m :=
    rustLinesL_joinNl (saveLines m) (fun l hl => (hwf l hl).1) (fun l hl => (hwf l hl).2)
  have hblocks := foldl_blocks m.profiles { initLoadState with cur_section := "PROFILES" } rfl
    hnodup (fun np _ => rfl) (fun np hnp => (hpn np hnp).1) (fun np hnp => (hdev np hnp).1)
    (fun np hnp dw hdw => ((hdev np hnp).2 dw hdw).2.1)
  have hrun : (saveLines m).foldl processLine initLoadState
      = (⟨m.profiles, m.schedule, "SCHEDULE", (m.profiles.map Prod.fst).getLastD ""⟩ : LoadState) := by
    simp only [saveLines, List.foldl_cons, List.foldl_append]
    rw [processLine_profilesHeader]
    rw [hblocks]
    rw [processLine_scheduleHeader]
    show (m.schedule.map scheduleLine).foldl processLine
      ⟨m.profiles.map (fun np => (np.1, ⟨np.1, np.2.monitor_wallpapers⟩)), [], "SCHEDULE",
        (m.profiles.map Prod.fst).getLastD ""⟩ = _
    rw [foldl_schedLines m.schedule
      ⟨m.profiles.map (fun np => (np.1, ⟨np.1, np.2.monitor_wallpapers⟩)), [], "SCHEDULE",
        (m.profiles.map Prod.fst).getLastD ""⟩ rfl
      (fun e he => ⟨(hsch e he).2.1, (hsch e he).2.2.1, (hsch e he).2.2.2⟩)]
    have hmap := map_norm_eq m.profiles hnames
    simp [hmap]
  refine ⟨rfl, ?_, ?_⟩
  · show ((rustLinesL (save_config m).data).foldl processLine initLoadState).profiles = m.profiles
    rw [hlines, hrun]
  · show ((rustLinesL (save_config m).data).foldl processLine initLoadState).schedule = m.schedule
    rw [hlines, hrun]

/-- C1 counterexample: the manager mgrEq satisfies the claim's stated
precondition — its profile name p and device name a=b contain no newline and
no section-delimiter bracket — yet after save and load the profile's mapping
differs: the device a=b no longer has an entry (the loader split the line at
the FIRST equals sign, producing device a instead), so the claim as stated
is false. -/
theorem wm_C1_counterexample :
    (mgrEq.profiles.all (fun np =>
      np.1.data.all (fun c => !(c == '\n') && !(c == '[') && !(c == ']')) &&
      np.2.monitor_wallpapers.all (fun dw =>
        dw.1.data.all (fun c => !(c == '\n') && !(c == '[') && !(c == ']'))))) = true ∧
    lookupWallpaper mgrEq "p" "a=b" = some "c" ∧
    lookupWallpaper (load_config mgrEq (some (save_config mgrEq))).2 "p" "a=b" = none ∧
    lookupWallpaper (load_config mgrEq (some (save_config mgrEq))).2 "p" "a" = some "b=c" := by
  refine ⟨by decide, by decide, by decide, by decide⟩

/-- C1 witness: the amended round trip on a concrete two-profile store with a
two-entry schedule. -/
theorem wm_C1_witness :
    (load_config mgrEmpty (some (save_config mgrRT))).1 = true ∧
    (load_config mgrEmpty (some (save_config mgrRT))).2.profiles = mgrRT.profiles ∧
    (load_config mgrEmpty (some (save_config mgrRT))).2.schedule = mgrRT.schedule := by
  have h := wm_C1_roundtrip mgrRT mgrEmpty (by
    refine ⟨by decide, by decide, by decide, by decide, by decide⟩)
  exact h

/-! ## Claim C6: load_config error handling -/

/-- C6: an unopenable file makes load_config return false with the state
untouched; an openable file always yields true, the loaded profiles and
schedule are independent of whatever profiles and schedule were present
before (the destructive clear), and in the SCHEDULE section any non-header
line that does not split into exactly four comma-fields, or whose hour,
minute or enabled field fails to parse, leaves the parser state unchanged. -/
theorem wm_C6_load_config (m m2 : WallpaperManager) (content : String)
    (st : LoadState) (cs : List Char) :
    (load_config m none = (false, m)) ∧
    ((load_config m (some content)).1 = true) ∧
    ((load_config m (some content)).2.profiles = (load_config m2 (some content)).2.profiles ∧
     (load_config m (some content)).2.schedule = (load_config m2 (some content)).2.schedule) ∧
    (st.cur_section = "SCHEDULE" →
      ¬ (cs.head? = some '[' ∧ cs.getLast? = some ']') →
      badSchedLine cs = true → processLine st cs = st) := by
  refine ⟨rfl, rfl, ⟨rfl, rfl⟩, ?_⟩
  intro hsec hhdr hbad
  by_cases hnil : cs = []
  · simp [processLine, hnil]
  · have hsecne : ¬ (st.cur_section = "PROFILES") := by rw [hsec]; decide
    simp only [processLine]
    rw [if_neg hnil, if_neg hhdr, if_neg hsecne, if_pos hsec]
    simp only [processScheduleLine]
    rcases hsp : splitCh ',' cs with _ | ⟨p0, ps⟩
    · rfl
    rcases ps with _ | ⟨p1, ps⟩
    · rfl
    rcases ps with _ | ⟨p2, ps⟩
    · rfl
    rcases ps with _ | ⟨p3, ps⟩
    · rfl
    rcases ps with _ | ⟨p4, ps⟩
    · simp only [badSchedLine, hsp] at hbad
      cases hu1 : parseU32 p1 with
      | none => simp [hu1]
      | some h1v =>
        cases hu2 : parseU32 p2 with
        | none => simp [hu2]
        | some h2v =>
          cases hu3 : parseI32 p3 with
          | none => simp [hu3]
          | some h3v =>
            rw [hu1, hu2, hu3] at hbad
            simp at hbad
    · rfl

/-- C6 witness: a concrete unopenable load, a successful load of junk
content, and a malformed schedule line (non-numeric hour) that is skipped. -/
theorem wm_C6_witness :
    load_config mgrRT none = (false, mgrRT) ∧
    (load_config mgrRT (some "garbage")).1 = true ∧
    (load_config mgrRT (some "garbage")).2.profiles
      = (load_config mgrEmpty (some "garbage")).2.profiles ∧
    processLine ⟨[], [], "SCHEDULE", ""⟩ ("p,xx,0,1".data) = ⟨[], [], "SCHEDULE", ""⟩ := by
  have h := wm_C6_load_config mgrRT mgrEmpty "garbage" ⟨[], [], "SCHEDULE", ""⟩ ("p,xx,0,1".data)
  exact ⟨h.1, h.2.1, h.2.2.1.1, h.2.2.2 (by decide) (by decide) (by decide)⟩
